import Mathlib

/-!
Shallow embedding of Arhaan-Siddiquee/Golang_ImageDown_API (src/main.go,
which concatenates two variants of the server) together with the Go
standard-library routines the code calls (net/url parsing, path/filepath
Base/Ext, crypto/sha256, fmt %x).  Go strings are modelled as `List Char`
(exact for the ASCII data all claims are about); raw bytes produced by
percent-decoding are represented by the character of the same code point.
-/

namespace ImageDown

def isAlnumChar (c : Char) : Bool :=
  ('a' ≤ c && c ≤ 'z') || ('A' ≤ c && c ≤ 'Z') || ('0' ≤ c && c ≤ '9')

/-- Character class of the sanitizing regexp `[^a-zA-Z0-9\.\-_]` in
`generateFilename` (src/main.go line 87): `true` exactly for the characters
the regexp leaves untouched. -/
def isAllowedChar (c : Char) : Bool :=
  isAlnumChar c || c == '.' || c == '-' || c == '_'

def isDigitChar (c : Char) : Bool := '0' ≤ c && c ≤ '9'

/-- UTF-8 encoding of one character, as Go's `[]byte(string)` produces it. -/
def utf8Char (c : Char) : List Nat :=
  let n := c.toNat
  if n < 0x80 then [n]
  else if n < 0x800 then [0xC0 ||| (n >>> 6), 0x80 ||| (n &&& 0x3F)]
  else if n < 0x10000 then
    [0xE0 ||| (n >>> 12), 0x80 ||| ((n >>> 6) &&& 0x3F), 0x80 ||| (n &&& 0x3F)]
  else
    [0xF0 ||| (n >>> 18), 0x80 ||| ((n >>> 12) &&& 0x3F),
     0x80 ||| ((n >>> 6) &&& 0x3F), 0x80 ||| (n &&& 0x3F)]

def utf8Bytes (cs : List Char) : List Nat := (cs.map utf8Char).flatten

/-! SHA-256 (crypto/sha256), over byte lists, words as `Nat` mod `2^32`. -/

def add32 (a b : Nat) : Nat := (a + b) % 4294967296

def rotr32 (x n : Nat) : Nat := ((x >>> n) ||| (x <<< (32 - n))) % 4294967296

def shaCh (x y z : Nat) : Nat := (x &&& y) ^^^ ((x ^^^ 0xffffffff) &&& z)

def shaMaj (x y z : Nat) : Nat := (x &&& y) ^^^ (x &&& z) ^^^ (y &&& z)

def bigSigma0 (x : Nat) : Nat := rotr32 x 2 ^^^ rotr32 x 13 ^^^ rotr32 x 22

def bigSigma1 (x : Nat) : Nat := rotr32 x 6 ^^^ rotr32 x 11 ^^^ rotr32 x 25

def smallSigma0 (x : Nat) : Nat := rotr32 x 7 ^^^ rotr32 x 18 ^^^ (x >>> 3)

def smallSigma1 (x : Nat) : Nat := rotr32 x 17 ^^^ rotr32 x 19 ^^^ (x >>> 10)

/-- The 64 SHA-256 round constants, in decimal. -/
def shaK : List Nat :=
  [1116352408, 1899447441, 3049323471, 3921009573, 961987163, 1508970993,
   2453635748, 2870763221, 3624381080, 310598401, 607225278, 1426881987,
   1925078388, 2162078206, 2614888103, 3248222580, 3835390401, 4022224774,
   264347078, 604807628, 770255983, 1249150122, 1555081692, 1996064986,
   2554220882, 2821834349, 2952996808, 3210313671, 3336571891, 3584528711,
   113926993, 338241895, 666307205, 773529912, 1294757372, 1396182291,
   1695183700, 1986661051, 2177026350, 2456956037, 2730485921, 2820302411,
   3259730800, 3345764771, 3516065817, 3600352804, 4094571909, 275423344,
   430227734, 506948616, 659060556, 883997877, 958139571, 1322822218,
   1537002063, 1747873779, 1955562222, 2024104815, 2227730452, 2361852424,
   2428436474, 2756734187, 3204031479, 3329325298]

/-- The initial SHA-256 state words, in decimal. -/
def shaH0 : List Nat :=
  [1779033703, 3144134277, 1013904242, 2773480762,
   1359893119, 2600822924, 528734635, 1541459225]

/-- Big-endian bytes of `x`, `n` bytes wide. -/
def toBytesBE (n : Nat) (x : Nat) : List Nat :=
  (List.range n).map (fun i => (x >>> (8 * (n - 1 - i))) % 256)

/-- Split a byte list into chunks of `k+1` bytes. -/
def chunksOf (k : Nat) : List Nat → List (List Nat)
  | [] => []
  | x :: xs => ((x :: xs).take (k + 1)) :: chunksOf k ((x :: xs).drop (k + 1))
termination_by l => l.length
decreasing_by simp; omega

def word4 (bs : List Nat) : Nat := bs.foldl (fun a b => a * 256 + b) 0

def toWordsBE (bs : List Nat) : List Nat := (chunksOf 3 bs).map word4

/-- SHA-256 padding: append 0x80, zeros, and the 64-bit big-endian bit length. -/
def padMsg (msg : List Nat) : List Nat :=
  msg ++ [0x80] ++ List.replicate ((119 - msg.length % 64) % 64) 0 ++
    toBytesBE 8 (msg.length * 8)

/-- The next message-schedule word from the 16+ already computed. -/
def nextWord (w : List Nat) : Nat :=
  let i := w.length
  add32 (add32 (smallSigma1 (w.getD (i - 2) 0)) (w.getD (i - 7) 0))
        (add32 (smallSigma0 (w.getD (i - 15) 0)) (w.getD (i - 16) 0))

def extendLoop : List Nat → Nat → List Nat
  | w, 0 => w
  | w, n + 1 => extendLoop (w ++ [nextWord w]) n

def compressStep (st : List Nat) (kw : Nat × Nat) : List Nat :=
  let a := st.getD 0 0
  let b := st.getD 1 0
  let c := st.getD 2 0
  let d := st.getD 3 0
  let e := st.getD 4 0
  let f := st.getD 5 0
  let g := st.getD 6 0
  let h := st.getD 7 0
  let t1 := add32 (add32 (add32 h (bigSigma1 e)) (add32 (shaCh e f g) kw.1)) kw.2
  let t2 := add32 (bigSigma0 a) (shaMaj a b c)
  [add32 t1 t2, a, b, c, add32 d t1, e, f, g]

def processBlock (h : List Nat) (block : List Nat) : List Nat :=
  let w := extendLoop (toWordsBE block) 48
  let st := (shaK.zip w).foldl compressStep h
  (h.zip st).map (fun p => add32 p.1 p.2)

/-- SHA-256 digest (32 bytes) of a byte list. -/
def sha256 (msg : List Nat) : List Nat :=
  (((chunksOf 63 (padMsg msg)).foldl processBlock shaH0).map (toBytesBE 4)).flatten

/-- `hash[:8]` of src/main.go lines 56/73: the first 8 digest bytes. -/
def first8 (bs : List Nat) : List Nat := bs.take 8

/-- One lowercase hex digit, as `fmt.Sprintf("%x", ...)` prints it. -/
def hexDigit (n : Nat) : Char := "0123456789abcdef".data.getD n '0'

def byteHex (b : Nat) : List Char := [hexDigit (b / 16 % 16), hexDigit (b % 16)]

/-- `fmt.Sprintf("%x", bytes)`: two lowercase hex digits per byte. -/
def hexBytes (bs : List Nat) : List Char := (bs.map byteHex).flatten

/-- The characters of the hashed fallback name `image_<hex8>` built at
src/main.go lines 56-57 and 73-74 from the raw URL string. -/
def hashChars (s : List Char) : List Char :=
  "image_".data ++ hexBytes (first8 (sha256 (utf8Bytes s)))

/-- The hex-encoded first 8 SHA-256 digest bytes of a URL string (the
`%x`-formatted `hash[:8]` part of the fallback name). -/
def hashHex (s : String) : String :=
  (hexBytes (first8 (sha256 (utf8Bytes s.data)))).asString

/-! `path/filepath` (unix rules), as called by generateFilename. -/

/-- Go `filepath.Base`: strip trailing slashes, keep the part after the last
slash; `"."` for the empty path, `"/"` when only slashes remain. -/
def basename (cs : List Char) : List Char :=
  if cs.isEmpty then ['.']
  else
    let r := cs.reverse.dropWhile (fun c => c == '/')
    let b := (r.takeWhile (fun c => c != '/')).reverse
    if b.isEmpty then ['/'] else b

/-- Scan of `filepath.Ext` over the reversed path: walking from the last
character, stop at a slash (no extension) or at a dot (the extension is the
dot followed by the characters already passed, kept in `acc`). -/
def extGo : List Char → List Char → List Char
  | [], _ => []
  | c :: t, acc => if c == '/' then [] else if c == '.' then c :: acc else extGo t (c :: acc)

/-- Go `filepath.Ext`: the suffix starting at the final dot of the last
path element, `""` when there is none. -/
def ext (cs : List Char) : List Char := extGo cs.reverse []

/-! `strings` helpers. -/

/-- Go `strings.Contains`. -/
def containsSeg (n : List Char) : List Char → Bool
  | [] => n.isEmpty
  | c :: t => n.isPrefixOf (c :: t) || containsSeg n t

/-- Go `strings.Cut` at a single character: the part before the first
occurrence, and the part after it when present. -/
def cutChar (sep : Char) : List Char → List Char × Option (List Char)
  | [] => ([], none)
  | c :: t =>
    if c == sep then ([], some t)
    else
      let r := cutChar sep t
      (c :: r.1, r.2)

/-- Split at every occurrence of `sep` (the segment iteration of
`url.ParseQuery`, which repeatedly cuts at the first separator). -/
def splitChar (sep : Char) : List Char → List (List Char)
  | [] => [[]]
  | c :: t =>
    if c == sep then [] :: splitChar sep t
    else
      match splitChar sep t with
      | [] => [[c]]
      | s :: ss => (c :: s) :: ss

def toLowerChar (c : Char) : Char :=
  if 'A' ≤ c && c ≤ 'Z' then Char.ofNat (c.toNat + 32) else c

/-! `net/url` — the subset exercised by src/main.go: `url.Parse` (absolute
URL grammar with scheme, authority, percent-decoded path, raw query),
`URL.Query().Get`, and `url.QueryUnescape`. -/

/-- The result of `url.Parse`; `opq` is the `Opaque` component. -/
structure GoURL where
  scheme : String
  opq : String
  host : String
  path : String
  rawQuery : String
  deriving DecidableEq, Repr

/-- The escaping modes of net/url's internal `unescape`. -/
inductive EscMode
  | path | host | query | userPassword | fragment
  deriving DecidableEq, BEq

/-- net/url `unhex`, over the character's code point: decimal digits map to
0-9, the hex letters (either case) to 10-15, everything else fails. -/
def unhexDigit (c : Char) : Option Nat :=
  let n := c.toNat
  if 48 ≤ n && n ≤ 57 then some (n - 48)
  else if 97 ≤ n && n ≤ 102 then some (n - 87)
  else if 65 ≤ n && n ≤ 70 then some (n - 55)
  else none

/-- Characters net/url's `shouldEscape` accepts raw in a host: alphanumerics,
the unreserved marks, the sub-delims and `:[]<>"`. -/
def hostNoEscapeChar (c : Char) : Bool :=
  isAlnumChar c || c == '-' || c == '.' || c == '_' || c == '~' ||
  c == '!' || c == '$' || c == '&' || c == '\'' || c == '(' || c == ')' ||
  c == '*' || c == '+' || c == ',' || c == ';' || c == '=' ||
  c == ':' || c == '[' || c == ']' || c == '<' || c == '>' || c == '"'

/-- net/url `unescape`: percent-decoding with the mode-specific checks
(malformed escapes fail; in host mode, escapes below 0x80 other than `%25`
fail and raw characters needing escape fail; `+` becomes a space only in
query mode). -/
def unescapeGo (mode : EscMode) : List Char → Option (List Char)
  | '%' :: a :: b :: rest =>
    match unhexDigit a, unhexDigit b with
    | some ha, some hb =>
      let v := ha * 16 + hb
      if mode == .host && ha < 8 && v != 0x25 then none
      else
        match unescapeGo mode rest with
        | some r => some (Char.ofNat v :: r)
        | none => none
    | _, _ => none
  | '%' :: _ => none
  | '+' :: rest =>
    match unescapeGo mode rest with
    | some r => some ((if mode == .query then ' ' else '+') :: r)
    | none => none
  | c :: rest =>
    if mode == .host && c.toNat < 0x80 && !hostNoEscapeChar c then none
    else
      match unescapeGo mode rest with
      | some r => some (c :: r)
      | none => none
  | [] => some []

/-- net/url `getScheme`: `some (scheme, rest)` (scheme possibly empty),
`none` for the "missing protocol scheme" error.  `orig` is the whole input,
returned when no scheme is present. -/
def getSchemeAux (orig : List Char) : List Char → List Char → Option (List Char × List Char)
  | [], _ => some ([], orig)
  | c :: t, acc =>
    if ('a' ≤ c && c ≤ 'z') || ('A' ≤ c && c ≤ 'Z') then getSchemeAux orig t (c :: acc)
    else if ('0' ≤ c && c ≤ '9') || c == '+' || c == '-' || c == '.' then
      if acc.isEmpty then some ([], orig) else getSchemeAux orig t (c :: acc)
    else if c == ':' then
      if acc.isEmpty then none else some (acc.reverse, t)
    else some ([], orig)

/-- net/url `validOptionalPort`. -/
def validOptionalPort : List Char → Bool
  | [] => true
  | c :: t => c == ':' && t.all isDigitChar

/-- net/url `parseHost`: bracketed hosts need a closing bracket and a valid
optional port after it; other hosts need a valid port after the last colon
when one is present; then the host is unescaped in host mode. -/
def parseHost (host : List Char) : Option (List Char) :=
  match host with
  | '[' :: _ =>
    let revCut := cutChar ']' host.reverse
    match revCut.2 with
    | none => none
    | some _ =>
      if validOptionalPort revCut.1.reverse then unescapeGo .host host else none
  | _ =>
    let revCut := cutChar ':' host.reverse
    match revCut.2 with
    | none => unescapeGo .host host
    | some _ =>
      if revCut.1.all isDigitChar then unescapeGo .host host else none

/-- net/url `validUserinfo` character set. -/
def validUserinfoChar (c : Char) : Bool :=
  isAlnumChar c || c == '-' || c == '.' || c == '_' || c == ':' || c == '~' ||
  c == '!' || c == '$' || c == '&' || c == '\'' || c == '(' || c == ')' ||
  c == '*' || c == '+' || c == ',' || c == ';' || c == '=' || c == '%' || c == '@'

/-- net/url `parseAuthority`: split the userinfo at the last `@`, validate
it, and parse the host part.  The program never reads the user, so only the
host (or failure) is returned. -/
def parseAuthority (authority : List Char) : Option (List Char) :=
  let revCut := cutChar '@' authority.reverse
  match revCut.2 with
  | none => parseHost authority
  | some afterRev =>
    match parseHost revCut.1.reverse with
    | none => none
    | some h =>
      let userinfo := afterRev.reverse
      if !userinfo.all validUserinfoChar then none
      else
        let userCut := cutChar ':' userinfo
        match userCut.2 with
        | none =>
          match unescapeGo .userPassword userinfo with
          | some _ => some h
          | none => none
        | some pw =>
          match unescapeGo .userPassword userCut.1, unescapeGo .userPassword pw with
          | some _, some _ => some h
          | _, _ => none

def isCtlChar (c : Char) : Bool := c.toNat < 0x20 || c.toNat == 0x7F

/-- net/url `url.Parse` (viaRequest = false) restricted to the fields the
program reads: control-character rejection, fragment validation, scheme
extraction, query split (including the force-query case), the opaque
shortcut, the relative-path colon check, authority parsing for `//` forms,
and percent-decoding of the path. -/
def parseURLChars (s : List Char) : Option GoURL :=
  if s.any isCtlChar then none
  else
    let fragCut := cutChar '#' s
    let fragOk :=
      match fragCut.2 with
      | none => true
      | some f => (unescapeGo .fragment f).isSome
    if !fragOk then none
    else
      match getSchemeAux fragCut.1 fragCut.1 [] with
      | none => none
      | some (schemeCs, rest1) =>
        let scheme := schemeCs.map toLowerChar
        let querySplit :=
          if !rest1.isEmpty && rest1.getLast? == some '?' && !rest1.dropLast.contains '?' then
            (rest1.dropLast, ([] : List Char))
          else
            let qc := cutChar '?' rest1
            (qc.1, qc.2.getD [])
        let rest2 := querySplit.1
        let rawQuery := querySplit.2
        match rest2 with
        | '/' :: '/' :: afterSS =>
          if scheme.isEmpty && afterSS.headD ' ' == '/' then
            match unescapeGo .path rest2 with
            | some p => some ⟨scheme.asString, "", "", p.asString, rawQuery.asString⟩
            | none => none
          else
            let ac := cutChar '/' afterSS
            let rest3 := match ac.2 with
              | none => ([] : List Char)
              | some t => '/' :: t
            match parseAuthority ac.1 with
            | none => none
            | some h =>
              match unescapeGo .path rest3 with
              | some p => some ⟨scheme.asString, "", h.asString, p.asString, rawQuery.asString⟩
              | none => none
        | '/' :: restP =>
          match unescapeGo .path ('/' :: restP) with
          | some p => some ⟨scheme.asString, "", "", p.asString, rawQuery.asString⟩
          | none => none
        | _ =>
          if !scheme.isEmpty then
            some ⟨scheme.asString, rest2.asString, "", "", rawQuery.asString⟩
          else if (cutChar '/' rest2).1.contains ':' then none
          else
            match unescapeGo .path rest2 with
            | some p => some ⟨scheme.asString, "", "", p.asString, rawQuery.asString⟩
            | none => none

def parseURL (s : String) : Option GoURL := parseURLChars s.data

/-- One segment of `url.ParseQuery` as consumed by `Values.Get`: segments
with semicolons, empty segments and segments whose key or value fails
query-unescaping are skipped; the first value stored under `key` wins. -/
def findSeg (key : List Char) : List (List Char) → List Char
  | [] => []
  | seg :: rest =>
    if seg.contains ';' || seg.isEmpty then findSeg key rest
    else
      let kv := cutChar '=' seg
      match unescapeGo .query kv.1, unescapeGo .query (kv.2.getD []) with
      | some k, some v => if k == key then v else findSeg key rest
      | _, _ => findSeg key rest

/-- `parsedURL.Query().Get(key)`: `Query` swallows `ParseQuery` errors and
keeps the successfully parsed pairs. -/
def queryGetGo (key : List Char) (q : List Char) : List Char :=
  if q.isEmpty then [] else findSeg key (splitChar '&' q)

/-! `generateFilename` (src/main.go lines 53-89; identical at 310-346). -/

/-- The replacement pass of `regexp.MustCompile(...).ReplaceAllString(fileName, "_")`:
every character outside the allowed class becomes an underscore. -/
def sanitize (cs : List Char) : List Char :=
  cs.map (fun c => if isAllowedChar c then c else '_')

def nextImageSeg : List Char := "/_next/image".data

/-- Step 2 of `generateFilename` (src/main.go lines 60-68): the basename of
the percent-decoded `url` query parameter for the two proxy hosts, the empty
candidate otherwise. -/
def proxyCandidate (u : GoURL) : List Char :=
  if (u.host == "nextjs.org" && nextImageSeg.isPrefixOf u.path.data) ||
     (u.host == "vercel-storage.com" && containsSeg nextImageSeg u.path.data) then
    let raw := queryGetGo "url".data u.rawQuery.data
    if raw.isEmpty then []
    else
      match unescapeGo .query raw with
      | some dec => basename dec
      | none => []
  else []

/-- Step 3 (src/main.go lines 70-76): fall back to the basename of the outer
path, or to the hashed name when that basename is `"."` or `"/"`. -/
def baseCandidate (s : List Char) (u : GoURL) : List Char :=
  if (proxyCandidate u).isEmpty then
    let b := basename u.path.data
    if b == ['.'] || b == ['/'] then hashChars s else b
  else proxyCandidate u

/-- Step 4 (src/main.go lines 78-85): borrow the outer path's extension when
the candidate has none, defaulting to `.jpg`. -/
def withExt (s : List Char) (u : GoURL) : List Char :=
  let fn1 := baseCandidate s u
  if (ext fn1).isEmpty then
    if !(ext u.path.data).isEmpty then fn1 ++ ext u.path.data else fn1 ++ ".jpg".data
  else fn1

/-- `generateFilename` on the character list of the URL string. -/
def generateFilenameChars (s : List Char) : List Char :=
  match parseURLChars s with
  | none => hashChars s ++ ".jpg".data
  | some u => sanitize (withExt s u)

def generateFilename (s : String) : String := (generateFilenameChars s.data).asString

/-! The batch pipeline.  One `downloadImage` goroutine runs per URL; the
environment assigns each task the outcome of its network and file I/O.
The error channel is buffered with one slot per task and is drained only
after `wg.Wait()` and `close`, so the drained errors are exactly the
messages of the failed workers, independently of scheduling order. -/

/-- How one `downloadImage` call ends (src/main.go lines 21-51): the
`client.Get` fails, the status is not 200, `os.Create` fails, `io.Copy`
fails after the file was created, or everything succeeds. -/
inductive FetchOutcome
  | getError | badStatus | createError | copyError | ok
  deriving DecidableEq, Repr

/-- `downloadImage` sends exactly one message on `errChan` on each failure
path and none on success. -/
def reportsError : FetchOutcome → Bool
  | .ok => false
  | _ => true

/-- Whether a file exists at the target path afterwards: `os.Create` runs
only after a 200 status, and a failed `io.Copy` leaves the partial file. -/
def leavesFile : FetchOutcome → Bool
  | .ok => true
  | .copyError => true
  | _ => false

/-- Observable filesystem/response steps of a handler, in program order.
`respond` marks the point where the HTTP response is produced; a deferred
`os.RemoveAll` therefore appears after it. -/
inductive Effect
  | mkdirAll (dir : String)
  | cleanOld (dir : String)
  | fetch (url : String) (path : String)
  | respond
  | removeAll (dir : String)
  deriving DecidableEq, Repr

/-- `filepath.Join(destDir, fileName)`; `filepath.Clean` is the identity on
every path formed in the theorems below (a directory name joined with a
sanitized, slash-free file name). -/
def joinPath (dir name : String) : String := dir ++ "/" ++ name

/-- The count produced by draining `errChan` after the join barrier: one
per worker that reported an error (src/main.go lines 392-396). -/
def errorCount (outcomes : List FetchOutcome) : Nat :=
  outcomes.countP (fun o => reportsError o)

/-- Modelled from the spec: the success set — "A location is included in the
success set iff its Worker reported no error."  This is the reference the
code's reported `savedPaths` is compared against. -/
def successSet (paths : List String) (outcomes : List FetchOutcome) : List String :=
  ((paths.zip outcomes).filter (fun pr => !reportsError pr.2)).map (fun pr => pr.1)

/-- The entries the archive loop writes (src/main.go lines 165-182 and
409-426): every path in `downloadedFiles` is offered to the loop; a path is
skipped exactly when `os.Open` fails, i.e. when its task left no file. -/
def zipEntries (paths : List String) (outcomes : List FetchOutcome) : List String :=
  ((paths.zip outcomes).filter (fun pr => leavesFile pr.2)).map
    (fun pr => (basename pr.1.data).asString)

namespace VariantA

/-- The decoded body of the first variant's handler (src/main.go lines
108-115); `bodyValid` is whether `json.Decode` succeeded. -/
structure Request where
  method : String
  bodyValid : Bool
  urls : List String
  zipReturn : Bool
  deriving DecidableEq, Repr

/-- Per-request nondeterminism: whether `os.MkdirAll` succeeds, whether the
request arrives during hour 0, and each task's I/O outcome. -/
structure Env where
  mkdirOk : Bool
  hourZero : Bool
  outcomes : List FetchOutcome
  deriving DecidableEq, Repr

inductive Response
  | methodNotAllowed
  | badRequest (msg : String)
  | serverError (msg : String)
  | zip (entries : List String)
  | json (success : Bool) (savedPaths : List String) (reportedErrorCount : Nat)
  deriving DecidableEq, Repr

def destDir : String := "downloaded_images"

/-- The first variant's `downloadHandler` (src/main.go lines 102-197):
method check, body check, empty check, 10-URL limit, `MkdirAll`, hour-0
cleanup, one `downloadImage` per URL with its path appended to
`downloadedFiles` at dispatch, join, drain, then a ZIP or the JSON
`{success, savedPaths, errorCount}` with `errorCount` computed as
`len(request.URLs) - len(downloadedFiles)`. -/
def downloadHandler (req : Request) (env : Env) : Response × List Effect :=
  if req.method != "POST" then (.methodNotAllowed, [.respond])
  else if !req.bodyValid then (.badRequest "Invalid request body", [.respond])
  else if req.urls.isEmpty then (.badRequest "No URLs provided", [.respond])
  else if req.urls.length > 10 then (.badRequest "Maximum 10 URLs allowed", [.respond])
  else if !env.mkdirOk then
    (.serverError "Failed to create directory", [.mkdirAll destDir, .respond])
  else
    let files := req.urls.map (fun u => joinPath destDir (generateFilename u))
    let fetches := (req.urls.zip files).map (fun p => Effect.fetch p.1 p.2)
    let hasErrors := env.outcomes.any reportsError
    let resp :=
      if req.zipReturn then Response.zip (zipEntries files env.outcomes)
      else Response.json (!hasErrors) files (req.urls.length - files.length)
    (resp, [Effect.mkdirAll destDir] ++
      (if env.hourZero then [Effect.cleanOld destDir] else []) ++ fetches ++ [Effect.respond])

end VariantA

namespace VariantB

/-- The decoded body of the second variant's handler (src/main.go lines
355-358); the `destDir` field is decoded but never used. -/
structure Request where
  method : String
  bodyValid : Bool
  imageURLs : List String
  destDirField : String
  deriving DecidableEq, Repr

structure Env where
  mkdirOk : Bool
  outcomes : List FetchOutcome
  deriving DecidableEq, Repr

inductive Response
  | methodNotAllowed
  | badRequest (msg : String)
  | serverError (msg : String)
  | zip (entries : List String)
  deriving DecidableEq, Repr

def destDir : String := "temp_downloads"

/-- The second variant's `downloadHandler` (src/main.go lines 348-427):
method check, body check, empty check (no batch-size limit), `MkdirAll`
with a deferred `os.RemoveAll(destDir)`, one `downloadImage` per URL with
its path appended to `downloadedFiles` at dispatch, join, drain into
`errorCount`, a 500 when `len(downloadedFiles) == 0`, otherwise the ZIP
stream.  The deferred removal runs after the response, hence the trailing
`removeAll` effect on every path that reaches `MkdirAll` success. -/
def downloadHandler (req : Request) (env : Env) : Response × List Effect :=
  if req.method != "POST" then (.methodNotAllowed, [.respond])
  else if !req.bodyValid then (.badRequest "Invalid request body", [.respond])
  else if req.imageURLs.isEmpty then (.badRequest "No URLs provided", [.respond])
  else if !env.mkdirOk then
    (.serverError "Failed to create directory", [.mkdirAll destDir, .respond])
  else
    let files := req.imageURLs.map (fun u => joinPath destDir (generateFilename u))
    let fetches := (req.imageURLs.zip files).map (fun p => Effect.fetch p.1 p.2)
    let resp :=
      if files.length == 0 then Response.serverError "No files were downloaded"
      else Response.zip (zipEntries files env.outcomes)
    (resp, [Effect.mkdirAll destDir] ++ fetches ++ [Effect.respond, Effect.removeAll destDir])

end VariantB

/-- Modelled from the spec: decidable form of the pattern
`^[A-Za-z0-9._-]+\.[A-Za-z0-9]+$` — all characters in the sanitized class,
a nonempty prefix, a dot, and a nonempty alphanumeric extension. -/
def matchesFilenamePattern (s : String) : Bool :=
  let revCs := s.data.reverse
  let suffix := revCs.takeWhile (fun c => c != '.')
  s.data.all isAllowedChar && !suffix.isEmpty && suffix.all isAlnumChar &&
    (match revCs.dropWhile (fun c => c != '.') with
     | '.' :: pre => !pre.isEmpty
     | _ => false)

/-! Helper lemmas. -/

lemma data_asString (l : List Char) : (List.asString l).data = l := rfl

lemma string_ext {a b : String} (h : a.data = b.data) : a = b := by
  cases a
  cases b
  simp_all

lemma all_imp {p q : Char → Bool} {l : List Char} (h : l.all p = true)
    (himp : ∀ c, p c = true → q c = true) : l.all q = true := by
  rw [List.all_eq_true] at h ⊢
  exact fun c hc => himp c (h c hc)

lemma alnum_allowed {c : Char} (h : isAlnumChar c = true) : isAllowedChar c = true := by
  simp [isAllowedChar, h]

lemma alnum_ne_dot {c : Char} (h : isAlnumChar c = true) : c ≠ '.' := by
  intro hc
  rw [hc] at h
  exact absurd h (by decide)

lemma hexDigit_alnum (n : Nat) : isAlnumChar (hexDigit n) = true := by
  rcases Nat.lt_or_ge n 16 with h | h
  · interval_cases n <;> decide
  · unfold hexDigit
    rw [List.getD_eq_default]
    · decide
    · simpa using h

lemma hexBytes_alnum (bs : List Nat) : (hexBytes bs).all isAlnumChar = true := by
  induction bs with
  | nil => decide
  | cons b t ih =>
    simp only [hexBytes, List.map_cons, List.flatten_cons, List.all_append, Bool.and_eq_true]
    exact ⟨by simp [byteHex, hexDigit_alnum], by simpa [hexBytes] using ih⟩

lemma hashChars_all_allowed (s : List Char) : (hashChars s).all isAllowedChar = true := by
  simp only [hashChars, List.all_append, Bool.and_eq_true]
  exact ⟨by decide, all_imp (hexBytes_alnum _) (fun c => alnum_allowed)⟩

lemma hashChars_no_dot (s : List Char) : '.' ∉ hashChars s := by
  intro h
  rw [hashChars, List.mem_append] at h
  rcases h with h | h
  · exact absurd h (by decide)
  · have := (List.all_eq_true.mp (hexBytes_alnum _)) _ h
    exact alnum_ne_dot this rfl

lemma hashChars_ne_nil (s : List Char) : hashChars s ≠ [] := by
  simp [hashChars]

lemma sanitize_all_allowed (cs : List Char) : (sanitize cs).all isAllowedChar = true := by
  rw [sanitize, List.all_map, List.all_eq_true]
  intro c _
  by_cases h : isAllowedChar c = true <;> simp [h]
  decide

lemma sanitize_length (cs : List Char) : (sanitize cs).length = cs.length := by
  simp [sanitize]

lemma sanitize_eq_of_allowed {cs : List Char} (h : ∀ c ∈ cs, isAllowedChar c = true) :
    sanitize cs = cs := by
  have hmap : cs.map (fun c => if isAllowedChar c then c else '_') = cs.map id :=
    List.map_congr_left (fun c hc => by simp [h c hc])
  rw [sanitize, hmap, List.map_id]

lemma dot_mem_sanitize {cs : List Char} (h : '.' ∈ cs) : '.' ∈ sanitize cs := by
  rw [sanitize]
  exact List.mem_map.mpr ⟨'.', h, by decide⟩

lemma no_slash_of_all_allowed {l : List Char} (h : l.all isAllowedChar = true) :
    l.contains '/' = false := by
  by_contra hc
  have hmem : '/' ∈ l := by
    have := eq_true_of_ne_false hc
    simpa [List.elem_iff] using this
  have := (List.all_eq_true.mp h) _ hmem
  exact absurd this (by decide)

/-! Lemmas about `filepath.Ext` and `filepath.Base`. -/

lemma extGo_nil_of_no_dot : ∀ (rcs : List Char) (acc : List Char),
    '.' ∉ rcs → extGo rcs acc = []
  | [], _, _ => rfl
  | c :: t, acc, h => by
    have hc : c ≠ '.' := fun hh => h (hh ▸ List.mem_cons_self c t)
    have ht : '.' ∉ t := fun hh => h (List.mem_cons_of_mem c hh)
    by_cases hs : c = '/'
    · simp [extGo, hs]
    · simp only [extGo, beq_iff_eq, if_neg hs, if_neg hc]
      exact extGo_nil_of_no_dot t (c :: acc) ht

lemma extGo_dot_of_ne_nil {rcs acc : List Char} (h : extGo rcs acc ≠ []) : '.' ∈ rcs := by
  by_contra hn
  exact h (extGo_nil_of_no_dot rcs acc hn)

lemma extGo_shape : ∀ (rcs : List Char) (acc : List Char),
    extGo rcs acc = [] ∨ ∃ t, extGo rcs acc = '.' :: t
  | [], _ => Or.inl rfl
  | c :: t, acc => by
    by_cases hs : c = '/'
    · exact Or.inl (by simp [extGo, hs])
    · by_cases hd : c = '.'
      · exact Or.inr ⟨acc, by simp [extGo, hs, hd]⟩
      · simp only [extGo, beq_iff_eq, if_neg hs, if_neg hd]
        exact extGo_shape t (c :: acc)

lemma ext_dot_mem {cs : List Char} (h : ext cs ≠ []) : '.' ∈ cs := by
  have hrev : '.' ∈ cs.reverse := @extGo_dot_of_ne_nil cs.reverse [] h
  exact List.mem_reverse.mp hrev

lemma ext_shape (cs : List Char) : ext cs = [] ∨ ∃ t, ext cs = '.' :: t :=
  extGo_shape cs.reverse []

lemma ext_nil_of_no_dot {cs : List Char} (h : '.' ∉ cs) : ext cs = [] :=
  extGo_nil_of_no_dot cs.reverse [] (fun hh => h (List.mem_reverse.mp hh))

lemma basename_ne_nil (cs : List Char) : basename cs ≠ [] := by
  rw [basename]
  split
  · simp
  · dsimp only
    split
    · simp
    · next hb => exact fun hh => hb (by simp [hh])

/-! Lemmas about the `generateFilename` steps. -/

lemma baseCandidate_ne_nil (s : List Char) (u : GoURL) : baseCandidate s u ≠ [] := by
  rw [baseCandidate]
  split
  · dsimp only
    split
    · exact hashChars_ne_nil s
    · exact basename_ne_nil _
  · next hp => exact fun hh => hp (by simp [hh])

lemma withExt_ne_nil (s : List Char) (u : GoURL) : withExt s u ≠ [] := by
  rw [withExt]
  dsimp only
  split
  · split <;> simp [List.append_eq_nil, baseCandidate_ne_nil s u]
  · exact baseCandidate_ne_nil s u

lemma withExt_dot_mem (s : List Char) (u : GoURL) : '.' ∈ withExt s u := by
  rw [withExt]
  dsimp only
  split
  · split
    · next hpe =>
      rcases ext_shape u.path.data with h | ⟨t, h⟩
      · rw [h] at hpe
        simp at hpe
      · rw [h]
        exact List.mem_append_right _ (List.mem_cons_self '.' t)
    · exact List.mem_append_right _ (by decide)
  · next hne => exact ext_dot_mem (by simpa using hne)

lemma trace_shape (a r rm : Effect) (f : List Effect) :
    ([a] ++ f ++ [r, rm]).getLast? = some rm ∧
    ([a] ++ f ++ [r, rm]).dropLast.getLast? = some r := by
  have h1 : [a] ++ f ++ [r, rm] = ((a :: f) ++ [r]) ++ [rm] := by simp
  rw [h1, List.getLast?_concat, List.dropLast_concat, List.getLast?_concat]
  exact ⟨rfl, rfl⟩

/-! Claim theorems. -/

/-- C1: the claim says a storage location appears in the reported success
set (savedPaths / the files offered to the archive loop) iff its fetch and
write completed without error.  The code violates this: `downloadedFiles`
is appended at dispatch time (src/main.go lines 139-147 and 379-387), so a
task whose fetch failed still has its path reported.  At the failing input
below, a batch of one URL whose fetch errors, the JSON response reports the
failed task's path in `savedPaths`, while the spec's success set is empty. -/
theorem claim1_failed_task_path_in_reported_set :
    (VariantA.downloadHandler ⟨"POST", true, ["https://bad-host/x"], false⟩
        ⟨true, false, [FetchOutcome.getError]⟩).1
      = VariantA.Response.json false ["downloaded_images/x.jpg"] 0 ∧
    reportsError FetchOutcome.getError = true ∧
    successSet ["downloaded_images/x.jpg"] [FetchOutcome.getError] = [] := by
  decide

/-- C2: for a batch of N tasks, the number of locations whose worker
reported no error plus the number of errors drained from the channel equals
N, however many fetches fail. -/
theorem claim2_success_plus_failures_eq_total :
    ∀ (paths : List String) (outcomes : List FetchOutcome),
    outcomes.length = paths.length →
    (successSet paths outcomes).length + errorCount outcomes = paths.length := by
  intro paths
  induction paths with
  | nil =>
    intro outcomes h
    rw [List.length_nil, List.length_eq_zero] at h
    subst h
    rfl
  | cons p ps ih =>
    intro outcomes h
    cases outcomes with
    | nil => simp at h
    | cons o os =>
      have hlen : os.length = ps.length := by simpa using h
      have hih := ih os hlen
      simp only [successSet, errorCount, List.zip_cons_cons, List.filter_cons,
        List.countP_cons, List.length_cons, List.length_map] at hih ⊢
      by_cases ho : reportsError o = true <;> simp [ho, List.length_map] <;> omega

theorem claim2_witness :
    (successSet ["p1", "p2"] [FetchOutcome.ok, FetchOutcome.getError]).length +
      errorCount [FetchOutcome.ok, FetchOutcome.getError] = 2 :=
  claim2_success_plus_failures_eq_total ["p1", "p2"]
    [FetchOutcome.ok, FetchOutcome.getError] (by decide)

/-- C3: the claim says a batch with zero successes returns a 500 with zero
archive entries.  The code's guard `len(downloadedFiles) == 0`
(src/main.go lines 398-401) is dead for non-empty URL lists because
`downloadedFiles` holds one planned path per URL: at the failing input, a
one-URL batch whose only fetch errors, the handler still answers with the
ZIP stream (zero entries), not a 500, even though every task failed. -/
theorem claim3_zero_success_no_500 :
    (VariantB.downloadHandler ⟨"POST", true, ["https://bad-host/x"], ""⟩
        ⟨true, [FetchOutcome.getError]⟩).1
      = VariantB.Response.zip [] ∧
    errorCount [FetchOutcome.getError] = 1 := by
  decide

/-- C4 counterexample: the URL `https://example.com/a.` parses, yet the
derived name is `a.`, which has no alphanumeric extension after its final
dot and so fails the spec pattern. -/
theorem claim4_counterexample :
    parseURL "https://example.com/a." = some ⟨"https", "", "example.com", "/a.", ""⟩ ∧
    generateFilename "https://example.com/a." = "a." ∧
    matchesFilenamePattern "a." = false := by
  decide

/-- C4 amended: for every parseable URL the derived name consists only of
characters in the sanitized class `[A-Za-z0-9._-]` and contains at least one
dot; the characters after the final dot need not be a nonempty alphanumeric
run. -/
theorem claim4_amended_sanitized_with_dot :
    ∀ (s : String) (u : GoURL), parseURL s = some u →
    (generateFilename s).data.all isAllowedChar = true ∧
    '.' ∈ (generateFilename s).data := by
  intro s u hp
  have hp' : parseURLChars s.data = some u := hp
  have hd : (generateFilename s).data = sanitize (withExt s.data u) := by
    simp only [generateFilename, data_asString, generateFilenameChars, hp']
  rw [hd]
  exact ⟨sanitize_all_allowed _, dot_mem_sanitize (withExt_dot_mem _ _)⟩

theorem claim4_witness :
    parseURL "https://h/a.jpg" = some ⟨"https", "", "h", "/a.jpg", ""⟩ ∧
    ((generateFilename "https://h/a.jpg").data.all isAllowedChar = true ∧
     '.' ∈ (generateFilename "https://h/a.jpg").data) :=
  ⟨by decide, claim4_amended_sanitized_with_dot "https://h/a.jpg"
    ⟨"https", "", "h", "/a.jpg", ""⟩ (by decide)⟩

/-- C5: `generateFilename` is total and deterministic — in this pure
embedding two applications to the same string are definitionally equal, and
the result is never the empty name. -/
theorem claim5_total_deterministic (s : String) :
    generateFilename s = generateFilename s ∧ 0 < (generateFilename s).length := by
  refine ⟨rfl, ?_⟩
  show 0 < (generateFilenameChars s.data).length
  cases hp : parseURLChars s.data with
  | none =>
    simp only [generateFilenameChars, hp]
    rw [List.length_append]
    exact Nat.add_pos_right _ (by decide)
  | some u =>
    simp only [generateFilenameChars, hp]
    rw [sanitize_length]
    exact List.length_pos.mpr (withExt_ne_nil s.data u)

/-- C6: in the variant that defines the batch-size limit (src/main.go lines
122-125), a POST with a decodable body listing more than 10 URLs is answered
with the 400 `Maximum 10 URLs allowed` and the trace shows no directory
creation and no fetch. -/
theorem claim6_over_limit_rejected_early :
    ∀ (req : VariantA.Request) (env : VariantA.Env),
    req.method = "POST" → req.bodyValid = true → 10 < req.urls.length →
    VariantA.downloadHandler req env =
      (VariantA.Response.badRequest "Maximum 10 URLs allowed", [Effect.respond]) := by
  intro req env hm hb h10
  have hne : req.urls.isEmpty = false := by
    cases hu : req.urls with
    | nil => rw [hu] at h10; simp at h10
    | cons a t => rfl
  rw [VariantA.downloadHandler, hm, hb]
  simp [hne, h10]

theorem claim6_witness :
    VariantA.downloadHandler
        ⟨"POST", true, ["u", "u", "u", "u", "u", "u", "u", "u", "u", "u", "u"], false⟩
        ⟨true, false, []⟩
      = (VariantA.Response.badRequest "Maximum 10 URLs allowed", [Effect.respond]) :=
  claim6_over_limit_rejected_early _ _ rfl rfl (by decide)

/-- C7 counterexample: in the `downloaded_images` variant a request's trace
contains a fetch that left a file but no removal effect at all — the claim
that the scratch directory is removed after every response is false for
this variant (its `cleanOldFiles` only runs during hour 0 and only deletes
files older than 24 hours). -/
theorem claim7_counterexample_files_persist :
    VariantA.downloadHandler ⟨"POST", true, ["https://h/a.jpg"], false⟩
        ⟨true, false, [FetchOutcome.ok]⟩
      = (VariantA.Response.json true ["downloaded_images/a.jpg"] 0,
         [Effect.mkdirAll "downloaded_images",
          Effect.fetch "https://h/a.jpg" "downloaded_images/a.jpg",
          Effect.respond]) ∧
    leavesFile FetchOutcome.ok = true := by
  decide

/-- C7 amended: only the `temp_downloads` variant removes its scratch
directory, via the deferred `os.RemoveAll` (src/main.go line 375): on every
request that reaches directory creation, the last effect is the removal of
`temp_downloads` and it comes after the response is produced. -/
theorem claim7_amended_tempdir_removed_after_response :
    ∀ (req : VariantB.Request) (env : VariantB.Env),
    req.method = "POST" → req.bodyValid = true → req.imageURLs ≠ [] →
    env.mkdirOk = true →
    (VariantB.downloadHandler req env).2.getLast? = some (Effect.removeAll "temp_downloads") ∧
    (VariantB.downloadHandler req env).2.dropLast.getLast? = some Effect.respond := by
  intro req env hm hb hne hmk
  have hempty : req.imageURLs.isEmpty = false := by
    cases hu : req.imageURLs with
    | nil => exact absurd hu hne
    | cons a t => rfl
  rw [VariantB.downloadHandler, hm, hb, hmk]
  simp only [bne_self_eq_false, Bool.not_false, Bool.not_true, if_false, ite_false,
    hempty, Bool.false_eq_true, if_neg, reduceIte]
  exact trace_shape _ _ _ _

theorem claim7_witness :
    (VariantB.downloadHandler ⟨"POST", true, ["https://h/a.jpg"], ""⟩
        ⟨true, [FetchOutcome.ok]⟩).2.getLast? = some (Effect.removeAll "temp_downloads") ∧
    (VariantB.downloadHandler ⟨"POST", true, ["https://h/a.jpg"], ""⟩
        ⟨true, [FetchOutcome.ok]⟩).2.dropLast.getLast? = some Effect.respond :=
  claim7_amended_tempdir_removed_after_response _ _ rfl rfl
    (List.cons_ne_nil _ _) rfl

/-- C8: the Next.js proxy URL is unwrapped via its `url` query parameter and
the derived filename is exactly `pic.png`. -/
theorem claim8_proxy_unwrap :
    generateFilename "https://nextjs.org/_next/image?url=https%3A%2F%2Fx.com%2Fpic.png&w=100"
      = "pic.png" := by
  decide

/-- C9: for every parseable URL with an empty path, the derived name is
`image_` followed by the lowercase hex of the first 8 bytes of the SHA-256
digest of the raw URL string, ending in `.jpg`. -/
theorem claim9_hash_fallback :
    ∀ (s : String) (u : GoURL), parseURL s = some u → u.path = "" →
    generateFilename s = "image_" ++ hashHex s ++ ".jpg" := by
  intro s u hp hpath
  have hp' : parseURLChars s.data = some u := hp
  have hpd : u.path.data = [] := by rw [hpath]
  have h0 : proxyCandidate u = [] := by
    rw [proxyCandidate, hpd]
    have h1 : nextImageSeg.isPrefixOf ([] : List Char) = false := by decide
    have h2 : containsSeg nextImageSeg [] = false := by decide
    simp [h1, h2]
  have h1 : baseCandidate s.data u = hashChars s.data := by
    rw [baseCandidate, h0, hpd]
    have hb : basename ([] : List Char) = ['.'] := by decide
    simp [hb]
  have hnodot : ext (hashChars s.data) = [] := ext_nil_of_no_dot (hashChars_no_dot s.data)
  have h2 : withExt s.data u = hashChars s.data ++ ".jpg".data := by
    rw [withExt]
    dsimp only
    rw [h1, hnodot, hpd]
    simp [ext, extGo]
  have h3 : sanitize (hashChars s.data ++ ".jpg".data) = hashChars s.data ++ ".jpg".data := by
    apply sanitize_eq_of_allowed
    intro c hc
    rcases List.mem_append.mp hc with h | h
    · exact List.all_eq_true.mp (hashChars_all_allowed s.data) c h
    · have hl : c ∈ ['.', 'j', 'p', 'g'] := h
      fin_cases hl <;> decide
  apply string_ext
  have hlhs : (generateFilename s).data = sanitize (withExt s.data u) := by
    simp only [generateFilename, data_asString, generateFilenameChars, hp']
  rw [hlhs, h2, h3]
  simp [hashChars, hashHex, String.data_append, data_asString, List.append_assoc]

theorem claim9_witness :
    generateFilename "https://example.com"
      = "image_" ++ hashHex "https://example.com" ++ ".jpg" :=
  claim9_hash_fallback "https://example.com" ⟨"https", "", "example.com", "", ""⟩
    (by decide) rfl

/-- C10: every character of every derived filename lies in the class
`[A-Za-z0-9._-]`; in particular the name never contains a path separator. -/
theorem claim10_sanitized_no_separator (s : String) :
    (generateFilename s).data.all isAllowedChar = true ∧
    (generateFilename s).data.contains '/' = false := by
  have hall : (generateFilename s).data.all isAllowedChar = true := by
    show (generateFilenameChars s.data).all isAllowedChar = true
    cases hp : parseURLChars s.data with
    | none =>
      simp only [generateFilenameChars, hp, List.all_append, Bool.and_eq_true]
      exact ⟨hashChars_all_allowed _, by decide⟩
    | some u =>
      simp only [generateFilenameChars, hp]
      exact sanitize_all_allowed _
  exact ⟨hall, no_slash_of_all_allowed hall⟩

end ImageDown
